import Mathlib

/-!
A verification development for the FlyKnight LAN-multiplayer networking
module (files network.py and config.py).  The host side of the protocol —
the session registry, the authoritative game-state store, the message
router, the broadcast loop and the length-prefixed wire framing — is
embedded shallowly: Python dicts become association lists with dict
semantics, the mutable server object becomes an explicit state record, and
each handler becomes a pure function from state to state plus the list of
messages it sends.
-/

namespace FlyKnight

/-! ## Python dictionaries

Python dict keys used by this program are ints (player, enemy and item
identifiers) and strings (field names and the top-level snapshot keys).
A dict is an association list in insertion order with unique keys; update
of an existing key keeps its position, a fresh key is appended, and del
removes the entry. -/

/-- A Python dict key as used by this program: an int or a string. -/
inductive Key where
  | kint (n : Int)
  | kstr (s : String)
deriving DecidableEq, Repr

/-- A Python value as exchanged by the networking module: None, ints,
strings, lists and dicts. -/
inductive Value where
  | vnone
  | vint (n : Int)
  | vstr (s : String)
  | vlist (l : List Value)
  | vdict (d : List (Key × Value))

/-- Dict lookup: the value at the first matching key, if any. -/
def dLookup {K V : Type} [DecidableEq K] : List (K × V) → K → Option V
  | [], _ => none
  | (k', v) :: t, k => if k = k' then some v else dLookup t k

/-- Dict membership test, as in the Python expression k in d. -/
def dContains {K V : Type} [DecidableEq K] (d : List (K × V)) (k : K) : Bool :=
  (dLookup d k).isSome

/-- Dict assignment d[k] = v: replace the value at an existing key in
place, otherwise append the new binding. -/
def dSet {K V : Type} [DecidableEq K] : List (K × V) → K → V → List (K × V)
  | [], k, v => [(k, v)]
  | (k', v') :: t, k, v =>
      if k = k' then (k, v) :: t else (k', v') :: dSet t k v

/-- Dict deletion del d[k]: drop the first binding of the key. -/
def dDel {K V : Type} [DecidableEq K] : List (K × V) → K → List (K × V)
  | [], _ => []
  | (k', v') :: t, k => if k = k' then t else (k', v') :: dDel t k

/-- The keys of a dict, in insertion order. -/
def dKeys {K V : Type} (d : List (K × V)) : List K := d.map Prod.fst

/-- Dict access with a default, as in the Python call d.get(k, dflt). -/
def dGet {K V : Type} [DecidableEq K] (d : List (K × V)) (k : K) (dflt : V) : V :=
  (dLookup d k).getD dflt

/-- Conversion of a value into a dict key, as performed when a value
received over the wire is used to index a dict; lists and dicts are
unhashable and cannot be keys. -/
def toKey : Value → Option Key
  | .vint n => some (.kint n)
  | .vstr s => some (.kstr s)
  | _ => none

/-! ## Messages and configuration -/

/-- The message envelope of class NetworkMessage (network.py lines 14-19):
a string type tag, an opaque data payload and a creation timestamp. -/
structure NetworkMessage where
  type : String
  data : Value
  timestamp : Nat

/-- MAX_PLAYERS from config.py line 13. -/
def MAX_PLAYERS : Nat := 4

/-- DEFAULT_PORT from config.py line 12. -/
def DEFAULT_PORT : Nat := 5555

/-- NETWORK_TICK_RATE from config.py line 14. -/
def NETWORK_TICK_RATE : Nat := 30

/-- The authoritative snapshot self.game_state: a Python dict with string
keys. -/
abbrev GameState := List (String × Value)

/-- The initial snapshot built in GameServer.__init__ (network.py lines
33-39). -/
def initial_game_state : GameState :=
  [("players", .vdict []), ("enemies", .vdict []), ("items", .vdict []),
   ("rooms", .vlist []), ("dungeon_level", .vint 1)]

/-- The snapshot viewed as a message payload, as when self.game_state is
placed inside a NetworkMessage. -/
def gsValue (g : GameState) : Value :=
  .vdict (g.map (fun kv => (.kstr kv.1, kv.2)))

/-- A Python runtime error raised while a message is processed: a missing
dict key, or an operation applied at the wrong type (including use of an
unhashable value as a key). -/
inductive PyErr where
  | keyError
  | typeError
deriving DecidableEq

/-- A pending broadcast recorded by the router: the message together with
the optional excluded player id passed to _broadcast. -/
abbrev Emit := NetworkMessage × Option Nat

/-! ## The message router

GameServer._process_message (network.py lines 135-179), as a pure function
from the snapshot to the new snapshot plus the broadcasts it emits.  The
parameter now stands for the wall-clock instant at which any NetworkMessage
constructed by the handler is stamped.  Failures that Python would raise as
exceptions (missing keys, wrong types, unhashable keys) are returned as
errors; the membership tests for enemy and item ids expect the snapshot
entry to be a mapping, per the snapshot schema. -/

/-- The body of GameServer._process_message. -/
def process_message (player_id : Nat) (now : Nat) (message : NetworkMessage)
    (gs : GameState) : Except PyErr (GameState × List Emit) :=
  if message.type = "player_update" then
    -- if "players" not in self.game_state: self.game_state["players"] = {}
    let gs1 := if dContains gs "players" then gs else dSet gs "players" (.vdict [])
    -- self.game_state["players"][player_id] = message.data
    match dLookup gs1 "players" with
    | some (.vdict ps) =>
        .ok (dSet gs1 "players" (.vdict (dSet ps (.kint player_id) message.data)), [])
    | some _ => .error .typeError
    | none => .error .keyError
  else if message.type = "attack" then
    .ok (gs, [(⟨"player_attack",
        .vdict [(.kstr "player_id", .vint player_id),
                (.kstr "attack_data", message.data)], now⟩, none)])
  else if message.type = "enemy_damage" then
    match message.data with
    | .vdict d =>
      match dLookup d (.kstr "enemy_id"), dLookup d (.kstr "damage") with
      | some enemy_id_v, some damage_v =>
        match toKey enemy_id_v with
        | none => .error .typeError
        | some ek =>
          -- if enemy_id in self.game_state.get("enemies", {})
          match dGet gs "enemies" (.vdict []) with
          | .vdict es =>
            match dLookup es ek with
            | some enemy_v =>
              match enemy_v, damage_v with
              | .vdict e, .vint damage =>
                match dLookup e (.kstr "hp") with
                | some (.vint hp) =>
                  -- enemy["hp"] -= damage
                  let hp2 := hp - damage
                  let e2 := dSet e (.kstr "hp") (.vint hp2)
                  if hp2 ≤ 0 then
                    -- del self.game_state["enemies"][enemy_id]
                    .ok (dSet gs "enemies" (.vdict (dDel (dSet es ek (.vdict e2)) ek)),
                      [(⟨"enemy_died",
                          .vdict [(.kstr "enemy_id", enemy_id_v),
                                  (.kstr "drops", dGet d (.kstr "drops") (.vlist []))],
                          now⟩, none)])
                  else
                    .ok (dSet gs "enemies" (.vdict (dSet es ek (.vdict e2))),
                      [(⟨"enemy_damaged",
                          .vdict [(.kstr "enemy_id", enemy_id_v),
                                  (.kstr "hp", .vint hp2)], now⟩, none)])
                | some _ => .error .typeError
                | none => .error .keyError
              | _, _ => .error .typeError
            | none => .ok (gs, [])
          | _ => .error .typeError
      | none, _ => .error .keyError
      | _, none => .error .keyError
    | _ => .error .typeError
  else if message.type = "pickup_item" then
    match message.data with
    | .vdict d =>
      match dLookup d (.kstr "item_id") with
      | some item_id_v =>
        match toKey item_id_v with
        | none => .error .typeError
        | some ik =>
          -- if item_id in self.game_state.get("items", {})
          match dGet gs "items" (.vdict []) with
          | .vdict its =>
            if dContains its ik then
              .ok (dSet gs "items" (.vdict (dDel its ik)),
                [(⟨"item_picked_up",
                    .vdict [(.kstr "item_id", item_id_v),
                            (.kstr "player_id", .vint player_id)], now⟩, none)])
            else .ok (gs, [])
          | _ => .error .typeError
      | none => .error .keyError
    | _ => .error .typeError
  else
    .ok (gs, [])

/-! ## The server

GameServer is embedded as an explicit state record: the clients dict is
tracked by its key list (the socket values play no role in the model), and
each handler returns the new state together with the list of sends it
performs.  A send records the message and the list of player ids it is
delivered to. -/

/-- The mutable state of a GameServer (network.py lines 25-40): the keys
of self.clients in insertion order, self.client_addresses, the id counter
self.next_player_id and the snapshot self.game_state. -/
structure ServerState where
  clients : List Nat
  client_addresses : List (Nat × String)
  next_player_id : Nat
  game_state : GameState

/-- The server state right after GameServer.__init__. -/
def initial_server : ServerState :=
  { clients := [], client_addresses := [], next_player_id := 0,
    game_state := initial_game_state }

/-- One delivery performed by the server: a message and the player ids it
is sent to. -/
structure Send where
  message : NetworkMessage
  recipients : List Nat

/-- The recipients of a _broadcast call (network.py lines 198-207): every
registered client except the excluded one. -/
def broadcast_recipients (clients : List Nat) (exclude : Option Nat) : List Nat :=
  clients.filter (fun i => decide (exclude ≠ some i))

/-- Dict-key insertion for the clients key list: replacing an existing key
leaves the list unchanged, a fresh key is appended. -/
def keyInsert (l : List Nat) (k : Nat) : List Nat :=
  if k ∈ l then l else l ++ [k]

/-- The welcome message built on acceptance (network.py lines 90-93). -/
def welcome_message (player_id : Nat) (gs : GameState) (now : Nat) : NetworkMessage :=
  ⟨"welcome", .vdict [(.kstr "player_id", .vint player_id),
                      (.kstr "game_state", gsValue gs)], now⟩

/-- The player_joined message built on acceptance (network.py line 96). -/
def player_joined_message (player_id : Nat) (now : Nat) : NetworkMessage :=
  ⟨"player_joined", .vdict [(.kstr "player_id", .vint player_id)], now⟩

/-- The player_left message built on removal (network.py line 256). -/
def player_left_message (player_id : Nat) (now : Nat) : NetworkMessage :=
  ⟨"player_left", .vdict [(.kstr "player_id", .vint player_id)], now⟩

/-- GameServer._remove_client (network.py lines 238-258): when the id is
registered, close and delete its socket entry, delete its address entry,
delete its snapshot player entry if present, and broadcast player_left to
the remaining clients; otherwise do nothing. -/
def remove_client (now : Nat) (player_id : Nat) (s : ServerState) :
    ServerState × List Send :=
  if player_id ∈ s.clients then
    let clients2 := s.clients.erase player_id
    let addrs2 := if dContains s.client_addresses player_id then
        dDel s.client_addresses player_id else s.client_addresses
    -- if player_id in self.game_state.get("players", {}): del that entry
    let gs2 := match dGet s.game_state "players" (.vdict []) with
      | .vdict ps =>
          if dContains ps (.kint player_id) then
            dSet s.game_state "players" (.vdict (dDel ps (.kint player_id)))
          else s.game_state
      | _ => s.game_state
    ({ s with clients := clients2, client_addresses := addrs2, game_state := gs2 },
     [⟨player_left_message player_id now, broadcast_recipients clients2 none⟩])
  else (s, [])

/-- One externally triggered server action: an incoming connection on the
listening socket, one decoded message arriving from a registered client, a
connection failure on a client, or one iteration of the update loop. -/
inductive ServerOp where
  | opAccept (addr : String)
  | opMessage (player_id : Nat) (message : NetworkMessage)
  | opRemove (player_id : Nat)
  | opTick

/-- One step of the server: the accept handler (network.py lines 72-105
including the capacity rejection at lines 78-80), the per-message part of
the client handler (lines 119-130: a processing error breaks the receive
loop, which then removes the client), explicit removal, and one update-loop
broadcast (lines 188-191). -/
def serverStep (now : Nat) (s : ServerState) : ServerOp → ServerState × List Send
  | .opAccept addr =>
      if MAX_PLAYERS ≤ s.clients.length then (s, [])
      else
        let pid := s.next_player_id
        let clients2 := keyInsert s.clients pid
        let s2 := { s with clients := clients2,
                           client_addresses := dSet s.client_addresses pid addr,
                           next_player_id := pid + 1 }
        (s2, [⟨welcome_message pid s.game_state now, [pid]⟩,
              ⟨player_joined_message pid now, broadcast_recipients clients2 (some pid)⟩])
  | .opMessage pid msg =>
      match process_message pid now msg s.game_state with
      | .ok (gs2, emits) =>
          ({ s with game_state := gs2 },
           emits.map (fun e => ⟨e.1, broadcast_recipients s.clients e.2⟩))
      | .error _ => remove_client now pid s
  | .opRemove pid => remove_client now pid s
  | .opTick =>
      (s, [⟨⟨"game_state", gsValue s.game_state, now⟩,
            broadcast_recipients s.clients none⟩])

/-- A run of the server over a list of actions, collecting every send in
order. -/
def serverRun (now : Nat) (s : ServerState) : List ServerOp → ServerState × List Send
  | [] => (s, [])
  | op :: rest =>
      let step := serverStep now s op
      let tail := serverRun (now + 1) step.1 rest
      (tail.1, step.2 ++ tail.2)

/-- The messages a given player id receives from a list of sends, in
order. -/
def sent_to (pid : Nat) (sends : List Send) : List NetworkMessage :=
  (sends.filter (fun snd => decide (pid ∈ snd.recipients))).map Send.message

/-! ## The per-client receive loop

GameServer._handle_client (network.py lines 113-133) over the sequence of
outcomes of successive _receive_from_client calls: a decoded message, a
socket timeout (the loop continues), a clean close (None is returned and
the loop breaks), or a raised exception — a socket error or a decode
failure inside pickle.loads (the handler prints and breaks).  After the
loop, _remove_client runs unconditionally. -/

/-- One outcome of a _receive_from_client call. -/
inductive RecvEvent where
  | recvMessage (m : NetworkMessage)
  | recvTimeout
  | recvClosed
  | recvError

/-- The body of GameServer._handle_client. -/
def handle_client (now : Nat) (pid : Nat) (s : ServerState) :
    List RecvEvent → ServerState × List Send
  | [] => remove_client now pid s
  | .recvTimeout :: rest => handle_client (now + 1) pid s rest
  | .recvClosed :: _ => remove_client now pid s
  | .recvError :: _ => remove_client now pid s
  | .recvMessage m :: rest =>
      match process_message pid now m s.game_state with
      | .ok (gs2, emits) =>
          let tail := handle_client (now + 1) pid { s with game_state := gs2 } rest
          (tail.1, (emits.map (fun e => ⟨e.1, broadcast_recipients s.clients e.2⟩)) ++ tail.2)
      | .error _ => remove_client now pid s

/-! ## Registry traces

Derived observations of a run, used to state the id-assignment
properties: the ids handed out (the counter value at each step that
advances it) and the ids retired (registered before a step and gone after
it). -/

/-- The player ids assigned along a run, in order. -/
def assigned_trace (now : Nat) (s : ServerState) : List ServerOp → List Nat
  | [] => []
  | op :: rest =>
      let s2 := (serverStep now s op).1
      (if s2.next_player_id = s.next_player_id then [] else [s.next_player_id]) ++
        assigned_trace (now + 1) s2 rest

/-- The player ids retired along a run, in order. -/
def removed_trace (now : Nat) (s : ServerState) : List ServerOp → List Nat
  | [] => []
  | op :: rest =>
      let s2 := (serverStep now s op).1
      s.clients.filter (fun i => !(s2.clients.contains i)) ++
        removed_trace (now + 1) s2 rest

/-- GameServer.update_game_state (network.py lines 260-263): under the
lock, self.game_state.update(state_update) — for each binding of the
update mapping in order, assign it into the snapshot dict. -/
def update_game_state (gs : GameState) (state_update : List (String × Value)) :
    GameState :=
  state_update.foldl (fun acc kv => dSet acc kv.1 kv.2) gs

/-! ## Dictionary lemmas -/

theorem dLookup_dSet {K V : Type} [DecidableEq K] (d : List (K × V)) (k k' : K) (v : V) :
    dLookup (dSet d k v) k' = if k' = k then some v else dLookup d k' := by
  induction d with
  | nil => simp [dSet, dLookup]
  | cons hd t ih =>
      obtain ⟨k0, v0⟩ := hd
      by_cases hk : k = k0
      · subst hk
        by_cases hk' : k' = k <;> simp [dSet, dLookup, hk']
      · by_cases hk' : k' = k0
        · subst hk'
          simp [dSet, dLookup, hk, Ne.symm hk]
        · simp [dSet, dLookup, hk, hk', ih]

theorem dDel_dSet {K V : Type} [DecidableEq K] (d : List (K × V)) (k : K) (v : V) :
    dDel (dSet d k v) k = dDel d k := by
  induction d with
  | nil => simp [dSet, dDel]
  | cons hd t ih =>
      obtain ⟨k0, v0⟩ := hd
      by_cases hk : k = k0
      · subst hk
        simp [dSet, dDel]
      · simp [dSet, dDel, hk, ih]

theorem update_cons (gs : GameState) (k : String) (v : Value)
    (u : List (String × Value)) :
    update_game_state gs ((k, v) :: u) = update_game_state (dSet gs k v) u := rfl

theorem dLookup_update_not_mem (gs : GameState) (u : List (String × Value))
    (k : String) (h : k ∉ dKeys u) :
    dLookup (update_game_state gs u) k = dLookup gs k := by
  induction u generalizing gs with
  | nil => rfl
  | cons hd t ih =>
      obtain ⟨k0, v0⟩ := hd
      simp only [dKeys, List.map_cons, List.mem_cons, not_or] at h
      rw [update_cons, ih _ (by simpa [dKeys] using h.2), dLookup_dSet,
          if_neg h.1]

/-- Recipients of a broadcast without exclusion: every registered client. -/
theorem broadcast_recipients_none (clients : List Nat) :
    broadcast_recipients clients none = clients := by
  simp [broadcast_recipients]

/-! ## Claims about the state store and the router -/

/-- C9: GameServer.update_game_state merges an update mapping shallowly:
every top-level key bound by the update has its whole value replace the
snapshot entry, and every top-level key not bound by the update keeps its
snapshot value. -/
theorem claim_C9_shallow_merge (gs : GameState) (u : List (String × Value))
    (hu : (dKeys u).Nodup) (k : String) :
    dLookup (update_game_state gs u) k =
      match dLookup u k with
      | some v => some v
      | none => dLookup gs k := by
  induction u generalizing gs with
  | nil => rfl
  | cons hd t ih =>
      obtain ⟨k0, v0⟩ := hd
      simp only [dKeys, List.map_cons, List.nodup_cons] at hu
      by_cases hk : k = k0
      · subst hk
        rw [update_cons, dLookup_update_not_mem _ _ _ hu.1, dLookup_dSet,
            if_pos rfl]
        simp [dLookup]
      · rw [update_cons, ih _ hu.2]
        rcases ht : dLookup t k with _ | v
        · simp [dLookup, hk, dLookup_dSet, ht]
        · simp [dLookup, hk, ht]

/-- C9 witness: replacing the enemies map wholesale while the items map
stays untouched. -/
theorem claim_C9_shallow_merge_witness :
    dLookup (update_game_state
        [("enemies", .vdict [(.kint 1, .vdict [(.kstr "hp", .vint 30)])]),
         ("items", .vdict [(.kint 4, .vstr "sword")])]
        [("enemies", .vdict [(.kint 2, .vdict [(.kstr "hp", .vint 60)])])])
      "enemies" =
      some (.vdict [(.kint 2, .vdict [(.kstr "hp", .vint 60)])]) := by
  rw [claim_C9_shallow_merge _ _ (by simp [dKeys])]
  rfl

/-- C10: the router ignores non-applicable messages — a type outside its
catalog, an enemy_damage for an enemy id absent from the enemies map, or a
pickup_item for an item id absent from the items map leaves the server
state unchanged and sends nothing. -/
theorem claim_C10_ignore_non_applicable :
    (∀ now s pid (msg : NetworkMessage),
      msg.type ∉ ["player_update", "attack", "enemy_damage", "pickup_item"] →
      serverStep now s (.opMessage pid msg) = (s, [])) ∧
    (∀ now s pid (msg : NetworkMessage) d ev dv ek es,
      msg.type = "enemy_damage" → msg.data = .vdict d →
      dLookup d (.kstr "enemy_id") = some ev →
      dLookup d (.kstr "damage") = some dv →
      toKey ev = some ek →
      dGet s.game_state "enemies" (.vdict []) = .vdict es →
      dLookup es ek = none →
      serverStep now s (.opMessage pid msg) = (s, [])) ∧
    (∀ now s pid (msg : NetworkMessage) d iv ik its,
      msg.type = "pickup_item" → msg.data = .vdict d →
      dLookup d (.kstr "item_id") = some iv →
      toKey iv = some ik →
      dGet s.game_state "items" (.vdict []) = .vdict its →
      dLookup its ik = none →
      serverStep now s (.opMessage pid msg) = (s, [])) := by
  refine ⟨?_, ?_, ?_⟩
  · intro now s pid msg h
    simp only [List.mem_cons, List.mem_singleton, not_or] at h
    obtain ⟨h1, h2, h3, h4⟩ := h
    simp [serverStep, process_message, h1, h2, h3, h4]
  · intro now s pid msg d ev dv ek es hty hdata he hd hk hes hlook
    obtain ⟨ty, data, ts⟩ := msg
    simp only at hty hdata
    subst hty hdata
    simp [serverStep, process_message, he, hd, hk, hes, hlook]
  · intro now s pid msg d iv ik its hty hdata hi hk hits hlook
    obtain ⟨ty, data, ts⟩ := msg
    simp only at hty hdata
    subst hty hdata
    simp [serverStep, process_message, hi, hk, hits, hlook, dContains]

/-- C10 witness: an unknown chat message, an enemy_damage for a missing
enemy and a pickup_item for a missing item, each against a concrete server
state, all leave it unchanged and send nothing. -/
theorem claim_C10_ignore_non_applicable_witness :
    serverStep 3 initial_server (.opMessage 0 ⟨"chat", .vstr "hi", 2⟩) =
        (initial_server, []) ∧
    serverStep 3 initial_server
        (.opMessage 0 ⟨"enemy_damage",
          .vdict [(.kstr "enemy_id", .vint 7), (.kstr "damage", .vint 20)], 2⟩) =
        (initial_server, []) ∧
    serverStep 3 initial_server
        (.opMessage 0 ⟨"pickup_item", .vdict [(.kstr "item_id", .vint 4)], 2⟩) =
        (initial_server, []) := by
  refine ⟨?_, ?_, ?_⟩
  · exact claim_C10_ignore_non_applicable.1 3 initial_server 0 _ (by simp)
  · exact claim_C10_ignore_non_applicable.2.1 3 initial_server 0 _
      [(.kstr "enemy_id", .vint 7), (.kstr "damage", .vint 20)]
      (.vint 7) (.vint 20) (.kint 7) [] rfl rfl (by simp [dLookup])
      (by simp [dLookup]) rfl (by simp [dGet, dLookup, initial_server, initial_game_state]) rfl
  · exact claim_C10_ignore_non_applicable.2.2 3 initial_server 0 _
      [(.kstr "item_id", .vint 4)] (.vint 4) (.kint 4) [] rfl rfl
      (by simp [dLookup]) rfl
      (by simp [dGet, dLookup, initial_server, initial_game_state]) rfl

/-- C1: for an enemy_damage message whose enemy id is present in the
enemies map, the router subtracts the damage from that enemy hp; if the
result is at most zero the entry is deleted and enemy_died with the id and
the drops of the message (default empty list) is broadcast to all
registered sessions, otherwise the entry keeps the reduced hp and
enemy_damaged with the new hp is broadcast to all registered sessions. -/
theorem claim_C1_enemy_damage (now : Nat) (s : ServerState) (pid : Nat)
    (msg : NetworkMessage) (d : List (Key × Value)) (ev : Value) (ek : Key)
    (dmg hp : Int) (es e : List (Key × Value))
    (hty : msg.type = "enemy_damage") (hdata : msg.data = .vdict d)
    (he : dLookup d (.kstr "enemy_id") = some ev)
    (hk : toKey ev = some ek)
    (hd : dLookup d (.kstr "damage") = some (.vint dmg))
    (hes : dGet s.game_state "enemies" (.vdict []) = .vdict es)
    (hen : dLookup es ek = some (.vdict e))
    (hhp : dLookup e (.kstr "hp") = some (.vint hp)) :
    serverStep now s (.opMessage pid msg) =
      if hp - dmg ≤ 0 then
        ({ s with game_state := dSet s.game_state "enemies" (.vdict (dDel es ek)) },
         [⟨⟨"enemy_died", .vdict [(.kstr "enemy_id", ev),
             (.kstr "drops", dGet d (.kstr "drops") (.vlist []))], now⟩, s.clients⟩])
      else
        ({ s with game_state := dSet s.game_state "enemies" (.vdict (dSet es ek (.vdict (dSet e (.kstr "hp") (.vint (hp - dmg)))))) },
         [⟨⟨"enemy_damaged", .vdict [(.kstr "enemy_id", ev),
             (.kstr "hp", .vint (hp - dmg))], now⟩, s.clients⟩]) := by
  obtain ⟨ty, data, ts⟩ := msg
  simp only at hty hdata
  subst hty hdata
  by_cases hle : hp - dmg ≤ 0
  · simp [serverStep, process_message, he, hd, hk, hes, hen, hhp, hle,
      dDel_dSet, broadcast_recipients_none]
  · simp [serverStep, process_message, he, hd, hk, hes, hen, hhp, hle,
      broadcast_recipients_none]

/-- C1 witness: the lethal-damage scenario — enemy 7 with hp 60 takes 60
damage with drops, its entry disappears and enemy_died goes to both
registered sessions. -/
theorem claim_C1_enemy_damage_witness :
    serverStep 9
      ⟨[0, 1], [(0, "a"), (1, "b")], 2,
        [("players", .vdict []),
         ("enemies", .vdict [(.kint 7, .vdict [(.kstr "hp", .vint 60)])]),
         ("items", .vdict [])]⟩
      (.opMessage 0 ⟨"enemy_damage",
        .vdict [(.kstr "enemy_id", .vint 7), (.kstr "damage", .vint 60),
                (.kstr "drops", .vlist [.vstr "sword"])], 5⟩) =
      (⟨[0, 1], [(0, "a"), (1, "b")], 2,
        [("players", .vdict []), ("enemies", .vdict []), ("items", .vdict [])]⟩,
       [⟨⟨"enemy_died",
           .vdict [(.kstr "enemy_id", .vint 7),
                   (.kstr "drops", .vlist [.vstr "sword"])], 9⟩, [0, 1]⟩]) := by
  rw [claim_C1_enemy_damage 9
      ⟨[0, 1], [(0, "a"), (1, "b")], 2,
        [("players", .vdict []),
         ("enemies", .vdict [(.kint 7, .vdict [(.kstr "hp", .vint 60)])]),
         ("items", .vdict [])]⟩ 0
      ⟨"enemy_damage",
        .vdict [(.kstr "enemy_id", .vint 7), (.kstr "damage", .vint 60),
                (.kstr "drops", .vlist [.vstr "sword"])], 5⟩
      [(.kstr "enemy_id", .vint 7), (.kstr "damage", .vint 60),
       (.kstr "drops", .vlist [.vstr "sword"])]
      (.vint 7) (.kint 7) 60 60
      [(.kint 7, .vdict [(.kstr "hp", .vint 60)])] [(.kstr "hp", .vint 60)]
      rfl rfl rfl rfl rfl rfl rfl rfl]
  rfl

/-! ## Claims about the session lifecycle -/

/-- C3 counterexample: a decode failure does tear the session down.  With
player 5 registered, a single receive that raises (as a failing
pickle.loads does inside _receive_from_client) makes _handle_client leave
its loop and remove the client, so the session does not stay registered. -/
theorem claim_C3_counterexample :
    5 ∉ (handle_client 0 5 ⟨[5], [(5, "a")], 6, initial_game_state⟩
          [.recvError]).1.clients := by
  intro h
  rw [show (handle_client 0 5 ⟨[5], [(5, "a")], 6, initial_game_state⟩
      [.recvError]).1.clients = [] from rfl] at h
  exact absurd h (List.not_mem_nil 5)

/-- C3 amended: a failure while receiving or decoding a message — any
exception out of _receive_from_client, including a decode failure — makes
_handle_client break out of its receive loop immediately (remaining input
is never processed) and remove the session. -/
theorem claim_C3_decode_failure_teardown (now pid : Nat) (s : ServerState)
    (rest : List RecvEvent) :
    handle_client now pid s (.recvError :: rest) = remove_client now pid s := rfl

/-- C6: removal is idempotent — removing an id that is not registered
changes nothing and sends nothing, and removing the same id twice never
broadcasts player_left a second time. -/
theorem claim_C6_remove_idempotent :
    (∀ now pid (s : ServerState), pid ∉ s.clients →
      remove_client now pid s = (s, [])) ∧
    (∀ now now2 pid (s : ServerState), s.clients.Nodup →
      (remove_client now2 pid (remove_client now pid s).1).2 = []) := by
  have h1 : ∀ now pid (s : ServerState), pid ∉ s.clients →
      remove_client now pid s = (s, []) := by
    intro now pid s h
    simp [remove_client, h]
  refine ⟨h1, ?_⟩
  intro now now2 pid s hnd
  by_cases hm : pid ∈ s.clients
  · have hout : pid ∉ ((remove_client now pid s).1).clients := by
      simp only [remove_client, if_pos hm]
      exact hnd.not_mem_erase
    rw [h1 now2 pid _ hout]
  · rw [h1 now pid s hm, h1 now2 pid s hm]

/-- C6 witness: removing an unknown id from a fresh server is a no-op, and
a second removal of an id sends nothing. -/
theorem claim_C6_remove_idempotent_witness :
    remove_client 0 3 initial_server = (initial_server, []) ∧
    (remove_client 1 0 (remove_client 0 0
        ⟨[0], [(0, "a")], 1, initial_game_state⟩).1).2 = [] :=
  ⟨claim_C6_remove_idempotent.1 0 3 initial_server (by simp [initial_server]),
   claim_C6_remove_idempotent.2 0 1 0 _ (by simp)⟩

theorem sent_to_append (pid : Nat) (a b : List Send) :
    sent_to pid (a ++ b) = sent_to pid a ++ sent_to pid b := by
  simp [sent_to, List.filter_append]

/-- C7: accepting a connection below capacity assigns the next sequential
id, registers the session and its address, sends the welcome carrying the
id and the current snapshot to the new session only, then broadcasts
player_joined to every live session other than the new one; along any
continuation of the run, the first message the new session receives is
that welcome — in particular it precedes every game_state broadcast. -/
theorem claim_C7_accept (now : Nat) (s : ServerState) (addr : String)
    (rest : List ServerOp)
    (hcap : s.clients.length < MAX_PLAYERS)
    (hids : ∀ i ∈ s.clients, i < s.next_player_id) :
    serverStep now s (.opAccept addr) =
      ({ s with clients := s.clients ++ [s.next_player_id],
                client_addresses := dSet s.client_addresses s.next_player_id addr,
                next_player_id := s.next_player_id + 1 },
       [⟨welcome_message s.next_player_id s.game_state now, [s.next_player_id]⟩,
        ⟨player_joined_message s.next_player_id now, s.clients⟩]) ∧
    (sent_to s.next_player_id (serverRun now s (.opAccept addr :: rest)).2).head? =
      some (welcome_message s.next_player_id s.game_state now) := by
  have hpid : s.next_player_id ∉ s.clients := fun h => absurd (hids _ h) (lt_irrefl _)
  have hkey : keyInsert s.clients s.next_player_id = s.clients ++ [s.next_player_id] := by
    simp [keyInsert, hpid]
  have hbr : broadcast_recipients (s.clients ++ [s.next_player_id])
      (some s.next_player_id) = s.clients := by
    rw [broadcast_recipients, List.filter_append]
    have h1 : s.clients.filter (fun i => decide (some s.next_player_id ≠ some i)) =
        s.clients := by
      refine List.filter_eq_self.mpr (fun a ha => ?_)
      have : a ≠ s.next_player_id := ne_of_lt (hids a ha)
      simpa using fun h => this h.symm
    rw [h1]
    simp
  have hstep : serverStep now s (.opAccept addr) =
      ({ s with clients := s.clients ++ [s.next_player_id],
                client_addresses := dSet s.client_addresses s.next_player_id addr,
                next_player_id := s.next_player_id + 1 },
       [⟨welcome_message s.next_player_id s.game_state now, [s.next_player_id]⟩,
        ⟨player_joined_message s.next_player_id now, s.clients⟩]) := by
    rw [serverStep, if_neg (by omega)]
    simp only [hkey, hbr]
  refine ⟨hstep, ?_⟩
  have hrun : (serverRun now s (.opAccept addr :: rest)).2 =
      (serverStep now s (.opAccept addr)).2 ++
        (serverRun (now + 1) (serverStep now s (.opAccept addr)).1 rest).2 := rfl
  rw [hrun, hstep, sent_to_append]
  have hsent : sent_to s.next_player_id
      [⟨welcome_message s.next_player_id s.game_state now, [s.next_player_id]⟩,
       ⟨player_joined_message s.next_player_id now, s.clients⟩] =
      [welcome_message s.next_player_id s.game_state now] := by
    simp [sent_to, hpid]
  rw [hsent]
  rfl

/-- C7 witness: a client joining a fresh host receives the welcome with id
0 and the initial snapshot as its first message, even with an update-loop
broadcast following. -/
theorem claim_C7_accept_witness :
    (sent_to 0 (serverRun 0 initial_server [.opAccept "peer", .opTick]).2).head? =
      some (welcome_message 0 initial_game_state 0) :=
  (claim_C7_accept 0 initial_server "peer" [.opTick] (by decide)
    (by intro i h; simp [initial_server] at h)).2

/-! ## Registry invariants -/

/-- The registry invariant: every registered id is below the id counter,
and no id is registered twice. -/
def RegInv (s : ServerState) : Prop :=
  (∀ i ∈ s.clients, i < s.next_player_id) ∧ s.clients.Nodup

theorem regInv_initial : RegInv initial_server := by
  constructor
  · intro i h
    simp [initial_server] at h
  · simp [initial_server]

theorem remove_client_cases (now pid : Nat) (s : ServerState) :
    ((remove_client now pid s).1.clients = s.clients ∧
      (remove_client now pid s).1.next_player_id = s.next_player_id) ∨
    ((remove_client now pid s).1.clients = s.clients.erase pid ∧
      (remove_client now pid s).1.next_player_id = s.next_player_id) := by
  unfold remove_client
  split
  · right
    exact ⟨rfl, rfl⟩
  · left
    exact ⟨rfl, rfl⟩

/-- Every step leaves the clients key list unchanged, erases one key from
it, or appends the freshly assigned id while advancing the counter. -/
theorem serverStep_cases (now : Nat) (s : ServerState) (op : ServerOp) :
    ((serverStep now s op).1.clients = s.clients ∧
      (serverStep now s op).1.next_player_id = s.next_player_id) ∨
    (∃ pid, (serverStep now s op).1.clients = s.clients.erase pid ∧
      (serverStep now s op).1.next_player_id = s.next_player_id) ∨
    ((serverStep now s op).1.clients = keyInsert s.clients s.next_player_id ∧
      (serverStep now s op).1.next_player_id = s.next_player_id + 1 ∧
      s.clients.length < MAX_PLAYERS) := by
  cases op with
  | opAccept addr =>
      by_cases hcap : MAX_PLAYERS ≤ s.clients.length
      · left
        rw [serverStep, if_pos hcap]
        exact ⟨rfl, rfl⟩
      · right; right
        rw [serverStep, if_neg hcap]
        exact ⟨rfl, rfl, by omega⟩
  | opMessage pid msg =>
      rcases hpm : process_message pid now msg s.game_state with e | ⟨gs2, emits⟩
      · rcases remove_client_cases now pid s with h | h
        · left
          rw [serverStep, hpm]
          exact h
        · right; left
          refine ⟨pid, ?_⟩
          rw [serverStep, hpm]
          exact h
      · left
        rw [serverStep, hpm]
        exact ⟨rfl, rfl⟩
  | opRemove pid =>
      rcases remove_client_cases now pid s with h | h
      · left
        exact h
      · right; left
        exact ⟨pid, h⟩
  | opTick =>
      left
      exact ⟨rfl, rfl⟩

theorem serverStep_next_mono (now : Nat) (s : ServerState) (op : ServerOp) :
    s.next_player_id ≤ (serverStep now s op).1.next_player_id := by
  rcases serverStep_cases now s op with ⟨_, h⟩ | ⟨_, _, h⟩ | ⟨_, h, _⟩ <;> omega

theorem serverRun_next_mono (now : Nat) (s : ServerState) (ops : List ServerOp) :
    s.next_player_id ≤ (serverRun now s ops).1.next_player_id := by
  induction ops generalizing now s with
  | nil => exact le_refl _
  | cons op rest ih =>
      exact le_trans (serverStep_next_mono now s op) (ih (now + 1) _)

theorem regInv_step (now : Nat) (s : ServerState) (op : ServerOp)
    (h : RegInv s) : RegInv (serverStep now s op).1 := by
  obtain ⟨hb, hn⟩ := h
  rcases serverStep_cases now s op with ⟨h1, h2⟩ | ⟨pid, h1, h2⟩ | ⟨h1, h2, _⟩
  · exact ⟨fun i hi => h2 ▸ hb i (h1 ▸ hi), h1 ▸ hn⟩
  · refine ⟨fun i hi => ?_, ?_⟩
    · rw [h2]
      exact hb i (List.mem_of_mem_erase (h1 ▸ hi))
    · rw [h1]
      exact hn.erase pid
  · have hfresh : s.next_player_id ∉ s.clients := fun hm => absurd (hb _ hm) (lt_irrefl _)
    have hk : keyInsert s.clients s.next_player_id = s.clients ++ [s.next_player_id] := by
      simp [keyInsert, hfresh]
    refine ⟨fun i hi => ?_, ?_⟩
    · rw [h1, hk] at hi
      rw [h2]
      rcases List.mem_append.mp hi with hi | hi
      · exact lt_trans (hb i hi) (Nat.lt_succ_self _)
      · simp at hi
        omega
    · rw [h1, hk]
      refine List.nodup_append.mpr ⟨hn, List.nodup_singleton _, ?_⟩
      intro a ha hb
      rw [List.mem_singleton] at hb
      exact hfresh (hb ▸ ha)

theorem regInv_run (now : Nat) (s : ServerState) (ops : List ServerOp)
    (h : RegInv s) : RegInv (serverRun now s ops).1 := by
  induction ops generalizing now s with
  | nil => exact h
  | cons op rest ih => exact ih (now + 1) _ (regInv_step now s op h)

theorem assigned_trace_cons (now : Nat) (s : ServerState) (op : ServerOp)
    (rest : List ServerOp) :
    assigned_trace now s (op :: rest) =
      (if (serverStep now s op).1.next_player_id = s.next_player_id then []
       else [s.next_player_id]) ++
        assigned_trace (now + 1) (serverStep now s op).1 rest := rfl

theorem removed_trace_cons (now : Nat) (s : ServerState) (op : ServerOp)
    (rest : List ServerOp) :
    removed_trace now s (op :: rest) =
      s.clients.filter (fun i => !((serverStep now s op).1.clients.contains i)) ++
        removed_trace (now + 1) (serverStep now s op).1 rest := rfl

theorem assigned_trace_ge (now : Nat) (s : ServerState) (ops : List ServerOp) :
    ∀ j ∈ assigned_trace now s ops, s.next_player_id ≤ j := by
  induction ops generalizing now s with
  | nil => intro j h; simp [assigned_trace] at h
  | cons op rest ih =>
      intro j hj
      rw [assigned_trace_cons] at hj
      rcases List.mem_append.mp hj with hj | hj
      · split at hj
        · simp at hj
        · simp at hj
          omega
      · exact le_trans (serverStep_next_mono now s op) (ih (now + 1) _ j hj)

theorem assigned_trace_pairwise (now : Nat) (s : ServerState) (ops : List ServerOp) :
    List.Pairwise (· < ·) (assigned_trace now s ops) := by
  induction ops generalizing now s with
  | nil => exact List.Pairwise.nil
  | cons op rest ih =>
      rw [assigned_trace_cons]
      by_cases hg : (serverStep now s op).1.next_player_id = s.next_player_id
      · rw [if_pos hg]
        exact ih (now + 1) _
      · rw [if_neg hg]
        have hsucc : (serverStep now s op).1.next_player_id = s.next_player_id + 1 := by
          rcases serverStep_cases now s op with ⟨_, h⟩ | ⟨_, _, h⟩ | ⟨_, h, _⟩ <;> omega
        refine List.pairwise_cons.mpr ⟨fun j hj => ?_, ih (now + 1) _⟩
        have := assigned_trace_ge (now + 1) _ rest j hj
        omega

theorem removed_trace_lt (now : Nat) (s : ServerState) (ops : List ServerOp)
    (hinv : RegInv s) :
    ∀ i ∈ removed_trace now s ops, i < (serverRun now s ops).1.next_player_id := by
  induction ops generalizing now s with
  | nil => intro i h; simp [removed_trace] at h
  | cons op rest ih =>
      intro i hi
      rw [removed_trace_cons] at hi
      have hrun : (serverRun now s (op :: rest)).1 =
          (serverRun (now + 1) (serverStep now s op).1 rest).1 := rfl
      rcases List.mem_append.mp hi with hi | hi
      · have hm : i ∈ s.clients := List.mem_of_mem_filter hi
        have h1 : i < s.next_player_id := hinv.1 i hm
        have h2 := serverStep_next_mono now s op
        have h3 := serverRun_next_mono (now + 1) (serverStep now s op).1 rest
        rw [hrun]
        omega
      · rw [hrun]
        exact ih (now + 1) _ (regInv_step now s op hinv) i hi

/-- C4: over any sequence of server actions from a fresh server, the
assigned player ids are handed out in strictly increasing order, the
registered ids are pairwise distinct in every reachable state, and an id
retired during the run is never assigned again in any continuation of the
run. -/
theorem claim_C4_id_discipline (now : Nat) (ops : List ServerOp) :
    List.Pairwise (· < ·) (assigned_trace now initial_server ops) ∧
    (serverRun now initial_server ops).1.clients.Nodup ∧
    (∀ i, i ∈ removed_trace now initial_server ops →
      ∀ now2 ops2, i ∉ assigned_trace now2 (serverRun now initial_server ops).1 ops2) := by
  refine ⟨assigned_trace_pairwise now initial_server ops,
    (regInv_run now initial_server ops regInv_initial).2, ?_⟩
  intro i hi now2 ops2 hassigned
  have h1 : i < (serverRun now initial_server ops).1.next_player_id :=
    removed_trace_lt now initial_server ops regInv_initial i hi
  have h2 := assigned_trace_ge now2 (serverRun now initial_server ops).1 ops2 i hassigned
  omega

/-- C4 witness: player 0 joins and leaves; a later accept hands out id 1,
never 0 again. -/
theorem claim_C4_id_discipline_witness :
    0 ∉ assigned_trace 7 (serverRun 0 initial_server
        [.opAccept "a", .opRemove 0]).1 [.opAccept "b"] :=
  (claim_C4_id_discipline 0 [.opAccept "a", .opRemove 0]).2.2 0 (by decide) 7
    [.opAccept "b"]

theorem mem_keyInsert_self (l : List Nat) (k : Nat) : k ∈ keyInsert l k := by
  rw [keyInsert]
  split
  · assumption
  · exact List.mem_append.mpr (Or.inr (List.mem_singleton_self k))

theorem remove_client_recipients (now pid : Nat) (s : ServerState) :
    ∀ snd ∈ (remove_client now pid s).2, ∀ r ∈ snd.recipients,
      r ∈ (remove_client now pid s).1.clients := by
  by_cases hm : pid ∈ s.clients
  · simp only [remove_client, if_pos hm]
    intro snd hsnd r hr
    simp only [List.mem_singleton] at hsnd
    subst hsnd
    simpa [broadcast_recipients_none] using hr
  · simp [remove_client, hm]

theorem serverStep_length (now : Nat) (s : ServerState) (op : ServerOp)
    (h : s.clients.length ≤ MAX_PLAYERS) :
    (serverStep now s op).1.clients.length ≤ MAX_PLAYERS := by
  rcases serverStep_cases now s op with ⟨h1, _⟩ | ⟨pid, h1, _⟩ | ⟨h1, _, h3⟩
  · rw [h1]
    exact h
  · rw [h1]
    exact le_trans (List.Sublist.length_le (List.erase_sublist pid s.clients)) h
  · rw [h1, keyInsert]
    split
    · exact h
    · simp only [List.length_append, List.length_singleton]
      omega

theorem serverRun_length (now : Nat) (s : ServerState) (ops : List ServerOp)
    (h : s.clients.length ≤ MAX_PLAYERS) :
    (serverRun now s ops).1.clients.length ≤ MAX_PLAYERS := by
  induction ops generalizing now s with
  | nil => exact h
  | cons op rest ih => exact ih (now + 1) _ (serverStep_length now s op h)

/-- C5: MAX_PLAYERS is 4; a connection accepted while 4 sessions are live
is answered by closing it — the state, including the id counter, is
untouched and nothing is sent, so no id is allocated and the peer is never
registered; every state reachable from a fresh server has at most 4 live
sessions; and every message any step sends is delivered only to registered
sessions of the resulting state, so a rejected peer, being unregistered,
appears in no broadcast. -/
theorem claim_C5_capacity :
    MAX_PLAYERS = 4 ∧
    (∀ now (s : ServerState) addr, 4 ≤ s.clients.length →
      serverStep now s (.opAccept addr) = (s, [])) ∧
    (∀ now ops, (serverRun now initial_server ops).1.clients.length ≤ 4) ∧
    (∀ now (s : ServerState) op, ∀ snd ∈ (serverStep now s op).2,
      ∀ r ∈ snd.recipients, r ∈ (serverStep now s op).1.clients) := by
  refine ⟨rfl, ?_, ?_, ?_⟩
  · intro now s addr h
    rw [serverStep, if_pos (show MAX_PLAYERS ≤ s.clients.length from h)]
  · intro now ops
    exact serverRun_length now initial_server ops (by simp [initial_server])
  · intro now s op snd hsnd r hr
    cases op with
    | opAccept addr =>
        by_cases hcap : MAX_PLAYERS ≤ s.clients.length
        · rw [serverStep, if_pos hcap] at hsnd
          simp at hsnd
        · rw [serverStep, if_neg hcap] at hsnd ⊢
          simp only [List.mem_cons, List.mem_singleton, List.not_mem_nil,
            or_false] at hsnd
          rcases hsnd with rfl | rfl
          · simp only [List.mem_singleton] at hr
            subst hr
            exact mem_keyInsert_self s.clients s.next_player_id
          · exact List.mem_of_mem_filter hr
    | opMessage pid msg =>
        rcases hpm : process_message pid now msg s.game_state with e | ⟨gs2, emits⟩
        · simp only [serverStep, hpm] at hsnd ⊢
          exact remove_client_recipients now pid s snd hsnd r hr
        · simp only [serverStep, hpm] at hsnd ⊢
          obtain ⟨e, _, rfl⟩ := List.mem_map.mp hsnd
          exact List.mem_of_mem_filter hr
    | opRemove pid => exact remove_client_recipients now pid s snd hsnd r hr
    | opTick =>
        simp only [serverStep, List.mem_singleton] at hsnd
        subst hsnd
        simpa [broadcast_recipients_none] using hr

/-- C5 witness: with four live sessions the fifth accept changes nothing
and sends nothing, and five accepts from a fresh server leave at most four
sessions live. -/
theorem claim_C5_capacity_witness :
    serverStep 0 ⟨[0, 1, 2, 3], [], 4, initial_game_state⟩ (.opAccept "e") =
      (⟨[0, 1, 2, 3], [], 4, initial_game_state⟩, []) ∧
    (serverRun 0 initial_server
      [.opAccept "a", .opAccept "b", .opAccept "c", .opAccept "d",
       .opAccept "e"]).1.clients.length ≤ 4 :=
  ⟨claim_C5_capacity.2.1 0 ⟨[0, 1, 2, 3], [], 4, initial_game_state⟩ "e" (by decide),
   claim_C5_capacity.2.2.1 0 _⟩

/-! ## The message codec

The wire format of the source is a 4-byte big-endian length followed by
the pickled NetworkMessage (network.py lines 213-236).  The framing is
embedded from the source.  The serializer itself is the pickle library,
which is not part of this repository; per the spec (section 4.1) the codec
is a schema-driven byte encoding of the message envelope, modelled here as
an explicit tagged encoding of the type tag, the payload value and the
timestamp.  A byte is a natural number below 256. -/

/-- Modelled from the spec: the byte encoding of a natural number used by
the codec in place of library pickle — a unary run of 1-bytes closed by a
0-byte. -/
def encNat (n : Nat) : List Nat := List.replicate n 1 ++ [0]

/-- Modelled from the spec: decoder matching encNat; returns the number
and the remaining bytes. -/
def decNat : List Nat → Option (Nat × List Nat)
  | 0 :: r => some (0, r)
  | 1 :: r =>
      match decNat r with
      | some (n, r2) => some (n + 1, r2)
      | none => none
  | _ => none

/-- Modelled from the spec: the byte encoding of an integer — a sign byte
followed by the encoded magnitude. -/
def encInt (n : Int) : List Nat := (if n < 0 then 1 else 0) :: encNat n.natAbs

/-- Modelled from the spec: decoder matching encInt. -/
def decInt : List Nat → Option (Int × List Nat)
  | 0 :: r =>
      match decNat r with
      | some (n, r2) => some ((n : Int), r2)
      | none => none
  | 1 :: r =>
      match decNat r with
      | some (n, r2) => some (-(n : Int), r2)
      | none => none
  | _ => none

/-- Modelled from the spec: the byte encoding of a character sequence. -/
def encChars : List Char → List Nat
  | [] => []
  | c :: t => encNat c.toNat ++ encChars t

/-- Modelled from the spec: decoder reading a given count of characters. -/
def decChars : Nat → List Nat → Option (List Char × List Nat)
  | 0, r => some ([], r)
  | n + 1, r =>
      match decNat r with
      | some (m, r2) =>
        match decChars n r2 with
        | some (cs, r3) => some (Char.ofNat m :: cs, r3)
        | none => none
      | none => none

/-- Modelled from the spec: the byte encoding of a string — its length
followed by its characters. -/
def encStr (s : String) : List Nat := encNat s.data.length ++ encChars s.data

/-- Modelled from the spec: decoder matching encStr. -/
def decStr (bytes : List Nat) : Option (String × List Nat) :=
  match decNat bytes with
  | some (n, r) =>
    match decChars n r with
    | some (cs, r2) => some (String.mk cs, r2)
    | none => none
  | none => none

/-- Modelled from the spec: the byte encoding of a dict key. -/
def encKey : Key → List Nat
  | .kint n => 0 :: encInt n
  | .kstr s => 1 :: encStr s

/-- Modelled from the spec: decoder matching encKey. -/
def decKey : List Nat → Option (Key × List Nat)
  | 0 :: r =>
      match decInt r with
      | some (n, r2) => some (.kint n, r2)
      | none => none
  | 1 :: r =>
      match decStr r with
      | some (s, r2) => some (.kstr s, r2)
      | none => none
  | _ => none

mutual
/-- Modelled from the spec: the schema-driven byte encoding of a payload
value — a tag byte below 5 followed by the content; sequences close with
the marker byte 5. -/
def encVal : Value → List Nat
  | .vnone => [0]
  | .vint n => 1 :: encInt n
  | .vstr s => 2 :: encStr s
  | .vlist l => 3 :: encVList l
  | .vdict d => 4 :: encVDict d

/-- Modelled from the spec: the byte encoding of a list payload. -/
def encVList : List Value → List Nat
  | [] => [5]
  | v :: t => encVal v ++ encVList t

/-- Modelled from the spec: the byte encoding of a dict payload. -/
def encVDict : List (Key × Value) → List Nat
  | [] => [5]
  | (k, v) :: t => encKey k ++ encVal v ++ encVDict t
end

mutual
/-- Modelled from the spec: fuelled decoder matching encVal; the fuel
bounds the nesting depth. -/
def decVal : Nat → List Nat → Option (Value × List Nat)
  | 0, _ => none
  | _ + 1, 0 :: r => some (.vnone, r)
  | _ + 1, 1 :: r =>
      match decInt r with
      | some (n, r2) => some (.vint n, r2)
      | none => none
  | _ + 1, 2 :: r =>
      match decStr r with
      | some (s, r2) => some (.vstr s, r2)
      | none => none
  | fuel + 1, 3 :: r =>
      match decVList fuel r with
      | some (l, r2) => some (.vlist l, r2)
      | none => none
  | fuel + 1, 4 :: r =>
      match decVDict fuel r with
      | some (d, r2) => some (.vdict d, r2)
      | none => none
  | _ + 1, _ => none

/-- Modelled from the spec: fuelled decoder matching encVList. -/
def decVList : Nat → List Nat → Option (List Value × List Nat)
  | 0, _ => none
  | _ + 1, [] => none
  | fuel + 1, b :: r =>
      if b = 5 then some ([], r)
      else
        match decVal fuel (b :: r) with
        | some (v, r2) =>
          match decVList fuel r2 with
          | some (l, r3) => some (v :: l, r3)
          | none => none
        | none => none

/-- Modelled from the spec: fuelled decoder matching encVDict. -/
def decVDict : Nat → List Nat → Option (List (Key × Value) × List Nat)
  | 0, _ => none
  | _ + 1, [] => none
  | fuel + 1, b :: r =>
      if b = 5 then some ([], r)
      else
        match decKey (b :: r) with
        | some (k, r2) =>
          match decVal fuel r2 with
          | some (v, r3) =>
            match decVDict fuel r3 with
            | some (d, r4) => some ((k, v) :: d, r4)
            | none => none
          | none => none
        | none => none
end

mutual
/-- The decoding depth a value needs. -/
def fuelVal : Value → Nat
  | .vnone => 1
  | .vint _ => 1
  | .vstr _ => 1
  | .vlist l => 1 + fuelVList l
  | .vdict d => 1 + fuelVDict d

/-- The decoding depth a list payload needs. -/
def fuelVList : List Value → Nat
  | [] => 1
  | v :: t => 1 + max (fuelVal v) (fuelVList t)

/-- The decoding depth a dict payload needs. -/
def fuelVDict : List (Key × Value) → Nat
  | [] => 1
  | (_, v) :: t => 1 + max (fuelVal v) (fuelVDict t)
end

/-! ## Codec round trips -/

theorem decNat_encNat (n : Nat) (rest : List Nat) :
    decNat (encNat n ++ rest) = some (n, rest) := by
  induction n with
  | zero => rfl
  | succ n ih =>
      simp only [encNat, List.replicate_succ, List.cons_append] at ih ⊢
      rw [decNat, ih]

theorem decInt_encInt (n : Int) (rest : List Nat) :
    decInt (encInt n ++ rest) = some (n, rest) := by
  by_cases h : n < 0
  · simp only [encInt, if_pos h, List.cons_append, decInt, decNat_encNat]
    have hab : -((n.natAbs : Int)) = n := by omega
    rw [hab]
  · simp only [encInt, if_neg h, List.cons_append, decInt, decNat_encNat]
    have hab : ((n.natAbs : Int)) = n := by omega
    rw [hab]

theorem decChars_encChars (cs : List Char) (rest : List Nat) :
    decChars cs.length (encChars cs ++ rest) = some (cs, rest) := by
  induction cs with
  | nil => rfl
  | cons c t ih =>
      simp only [encChars, List.length_cons, List.append_assoc]
      simp only [decChars, decNat_encNat, ih, Char.ofNat_toNat]

theorem decStr_encStr (s : String) (rest : List Nat) :
    decStr (encStr s ++ rest) = some (s, rest) := by
  obtain ⟨cs⟩ := s
  simp only [encStr, List.append_assoc]
  simp only [decStr, decNat_encNat, decChars_encChars]

theorem decKey_encKey (k : Key) (rest : List Nat) :
    decKey (encKey k ++ rest) = some (k, rest) := by
  cases k with
  | kint n =>
      simp only [encKey, List.cons_append, decKey, decInt_encInt]
  | kstr s =>
      simp only [encKey, List.cons_append, decKey, decStr_encStr]

/-- Every encoded value opens with a tag byte below the sequence marker. -/
theorem encVal_head (v : Value) : ∃ b t, encVal v = b :: t ∧ b < 5 := by
  cases v with
  | vnone => exact ⟨0, _, rfl, by omega⟩
  | vint n => exact ⟨1, _, rfl, by omega⟩
  | vstr s => exact ⟨2, _, rfl, by omega⟩
  | vlist l => exact ⟨3, _, rfl, by omega⟩
  | vdict d => exact ⟨4, _, rfl, by omega⟩

theorem encVal_length_pos (v : Value) : 1 ≤ (encVal v).length := by
  obtain ⟨b, t, hb, _⟩ := encVal_head v
  simp [hb]

theorem encKey_head (k : Key) : ∃ b t, encKey k = b :: t ∧ b < 5 := by
  cases k with
  | kint n => exact ⟨0, _, rfl, by omega⟩
  | kstr s => exact ⟨1, _, rfl, by omega⟩

mutual
theorem decVal_encVal (v : Value) (extra : Nat) (rest : List Nat) :
    decVal (fuelVal v + extra) (encVal v ++ rest) = some (v, rest) := by
  cases v with
  | vnone =>
      rw [show fuelVal Value.vnone + extra = extra + 1 from by rw [fuelVal]; omega]
      rfl
  | vint n =>
      rw [show fuelVal (Value.vint n) + extra = extra + 1 from by rw [fuelVal]; omega]
      simp only [encVal, List.cons_append, decVal, decInt_encInt]
  | vstr s =>
      rw [show fuelVal (Value.vstr s) + extra = extra + 1 from by rw [fuelVal]; omega]
      simp only [encVal, List.cons_append, decVal, decStr_encStr]
  | vlist l =>
      rw [show fuelVal (Value.vlist l) + extra = (fuelVList l + extra) + 1 from by
        rw [fuelVal]; omega]
      simp only [encVal, List.cons_append, decVal, decVList_encVList l extra rest]
  | vdict d =>
      rw [show fuelVal (Value.vdict d) + extra = (fuelVDict d + extra) + 1 from by
        rw [fuelVal]; omega]
      simp only [encVal, List.cons_append, decVal, decVDict_encVDict d extra rest]

theorem decVList_encVList (l : List Value) (extra : Nat) (rest : List Nat) :
    decVList (fuelVList l + extra) (encVList l ++ rest) = some (l, rest) := by
  cases l with
  | nil =>
      rw [show fuelVList [] + extra = extra + 1 from by rw [fuelVList]; omega]
      rfl
  | cons v t =>
      rw [show fuelVList (v :: t) + extra =
          (max (fuelVal v) (fuelVList t) + extra) + 1 from by rw [fuelVList]; omega]
      have h1 : decVal (max (fuelVal v) (fuelVList t) + extra)
          (encVal v ++ (encVList t ++ rest)) = some (v, encVList t ++ rest) := by
        rw [show max (fuelVal v) (fuelVList t) + extra =
            fuelVal v + ((max (fuelVal v) (fuelVList t) - fuelVal v) + extra) from by
          omega]
        exact decVal_encVal v _ _
      have h2 : decVList (max (fuelVal v) (fuelVList t) + extra)
          (encVList t ++ rest) = some (t, rest) := by
        rw [show max (fuelVal v) (fuelVList t) + extra =
            fuelVList t + ((max (fuelVal v) (fuelVList t) - fuelVList t) + extra) from by
          omega]
        exact decVList_encVList t _ _
      obtain ⟨b, bs, hb, hlt⟩ := encVal_head v
      rw [hb, List.cons_append] at h1
      simp only [encVList, List.append_assoc, hb, List.cons_append, decVList,
        if_neg (show ¬ b = 5 from by omega), h1, h2]

theorem decVDict_encVDict (d : List (Key × Value)) (extra : Nat) (rest : List Nat) :
    decVDict (fuelVDict d + extra) (encVDict d ++ rest) = some (d, rest) := by
  cases d with
  | nil =>
      rw [show fuelVDict [] + extra = extra + 1 from by rw [fuelVDict]; omega]
      rfl
  | cons kv t =>
      obtain ⟨k, v⟩ := kv
      rw [show fuelVDict ((k, v) :: t) + extra =
          (max (fuelVal v) (fuelVDict t) + extra) + 1 from by rw [fuelVDict]; omega]
      have h0 : decKey (encKey k ++ (encVal v ++ (encVDict t ++ rest))) =
          some (k, encVal v ++ (encVDict t ++ rest)) := decKey_encKey k _
      have h1 : decVal (max (fuelVal v) (fuelVDict t) + extra)
          (encVal v ++ (encVDict t ++ rest)) = some (v, encVDict t ++ rest) := by
        rw [show max (fuelVal v) (fuelVDict t) + extra =
            fuelVal v + ((max (fuelVal v) (fuelVDict t) - fuelVal v) + extra) from by
          omega]
        exact decVal_encVal v _ _
      have h2 : decVDict (max (fuelVal v) (fuelVDict t) + extra)
          (encVDict t ++ rest) = some (t, rest) := by
        rw [show max (fuelVal v) (fuelVDict t) + extra =
            fuelVDict t + ((max (fuelVal v) (fuelVDict t) - fuelVDict t) + extra) from by
          omega]
        exact decVDict_encVDict t _ _
      obtain ⟨b, bs, hb, hlt⟩ := encKey_head k
      rw [hb, List.cons_append] at h0
      simp only [encVDict, List.append_assoc, hb, List.cons_append, decVDict,
        if_neg (show ¬ b = 5 from by omega), h0, h1, h2]
end

theorem encVList_length_pos (l : List Value) : 1 ≤ (encVList l).length := by
  cases l with
  | nil => simp [encVList]
  | cons v t =>
      have := encVal_length_pos v
      simp only [encVList, List.length_append]
      omega

theorem encKey_length_pos (k : Key) : 1 ≤ (encKey k).length := by
  obtain ⟨b, t, hb, _⟩ := encKey_head k
  simp [hb]

theorem encVDict_length_pos (d : List (Key × Value)) : 1 ≤ (encVDict d).length := by
  cases d with
  | nil => simp [encVDict]
  | cons kv t =>
      obtain ⟨k, v⟩ := kv
      have := encKey_length_pos k
      simp only [encVDict, List.length_append]
      omega

mutual
theorem fuelVal_le (v : Value) : fuelVal v ≤ (encVal v).length := by
  cases v with
  | vnone => simp [fuelVal, encVal]
  | vint n => simp [fuelVal, encVal]
  | vstr s => simp [fuelVal, encVal]
  | vlist l =>
      have := fuelVList_le l
      simp only [fuelVal, encVal, List.length_cons]
      omega
  | vdict d =>
      have := fuelVDict_le d
      simp only [fuelVal, encVal, List.length_cons]
      omega

theorem fuelVList_le (l : List Value) : fuelVList l ≤ (encVList l).length := by
  cases l with
  | nil => simp [fuelVList, encVList]
  | cons v t =>
      have h1 := fuelVal_le v
      have h2 := fuelVList_le t
      have h3 := encVal_length_pos v
      have h4 := encVList_length_pos t
      simp only [fuelVList, encVList, List.length_append]
      omega

theorem fuelVDict_le (d : List (Key × Value)) : fuelVDict d ≤ (encVDict d).length := by
  cases d with
  | nil => simp [fuelVDict, encVDict]
  | cons kv t =>
      obtain ⟨k, v⟩ := kv
      have h1 := fuelVal_le v
      have h2 := fuelVDict_le t
      have h3 := encVal_length_pos v
      have h4 := encVDict_length_pos t
      have h5 := encKey_length_pos k
      simp only [fuelVDict, encVDict, List.length_append]
      omega
end

/-- Modelled from the spec: the serialization of a whole NetworkMessage —
the stand-in for the library call pickle.dumps(message) at network.py line
215 — encoding the type tag, the payload and the timestamp. -/
def pickle_dumps (m : NetworkMessage) : List Nat :=
  encStr m.type ++ encVal m.data ++ encNat m.timestamp

/-- Modelled from the spec: the stand-in for pickle.loads(data) at
network.py line 236; fails rather than produce a partial message. -/
def pickle_loads (bytes : List Nat) : Option NetworkMessage :=
  match decStr bytes with
  | some (ty, r) =>
    match decVal r.length r with
    | some (v, r2) =>
      match decNat r2 with
      | some (ts, r3) => if r3 = [] then some ⟨ty, v, ts⟩ else none
      | none => none
    | none => none
  | none => none

theorem pickle_roundtrip (m : NetworkMessage) :
    pickle_loads (pickle_dumps m) = some m := by
  obtain ⟨ty, v, ts⟩ := m
  simp only [pickle_dumps, List.append_assoc, pickle_loads, decStr_encStr]
  have hfuel : (encVal v ++ encNat ts).length =
      fuelVal v + ((encVal v ++ encNat ts).length - fuelVal v) := by
    have h1 := fuelVal_le v
    simp only [List.length_append]
    omega
  rw [hfuel, decVal_encVal]
  have hdn : decNat (encNat ts) = some (ts, []) := by
    have := decNat_encNat ts []
    simpa using this
  simp only [hdn]
  rfl

/-- The big-endian 4-byte encoding size.to_bytes(4, big) of network.py
line 217; defined for sizes below 2 to the 32. -/
def int_to_bytes4 (n : Nat) : List Nat :=
  [n / 16777216 % 256, n / 65536 % 256, n / 256 % 256, n % 256]

/-- The big-endian byte decoding int.from_bytes(size_data, big) of
network.py line 226. -/
def int_from_bytes (bs : List Nat) : Nat :=
  bs.foldl (fun acc b => acc * 256 + b) 0

theorem int_from_to_bytes4 (n : Nat) (h : n < 4294967296) :
    int_from_bytes (int_to_bytes4 n) = n := by
  simp only [int_to_bytes4, int_from_bytes, List.foldl]
  omega

/-- GameServer._send_to_client (network.py lines 213-217): pickle the
message and send a 4-byte big-endian length followed by the payload; a
payload of 2 to the 32 bytes or more cannot be framed (size.to_bytes
raises) and yields no frame. -/
def send_frame (m : NetworkMessage) : Option (List Nat) :=
  if (pickle_dumps m).length < 4294967296 then
    some (int_to_bytes4 (pickle_dumps m).length ++ pickle_dumps m)
  else none

/-- GameServer._receive_from_client (network.py lines 219-236) on a byte
stream: read the 4-byte size header (fewer available means the peer
closed: no message), read exactly size payload bytes (a short read means
no message), then unpickle the payload. -/
def receive_frame (stream : List Nat) : Option NetworkMessage :=
  if (stream.take 4).length < 4 then none
  else
    if (stream.drop 4).length < int_from_bytes (stream.take 4) then none
    else pickle_loads ((stream.drop 4).take (int_from_bytes (stream.take 4)))

/-- C2: framing then unframing is the identity — for every message the
send path can frame, the receive path run on that frame yields the
original message back, type, payload and timestamp intact. -/
theorem claim_C2_codec_roundtrip (m : NetworkMessage) (frame : List Nat)
    (h : send_frame m = some frame) :
    receive_frame frame = some m := by
  by_cases hlen : (pickle_dumps m).length < 4294967296
  · have hframe : frame = int_to_bytes4 (pickle_dumps m).length ++ pickle_dumps m := by
      rw [send_frame, if_pos hlen, Option.some.injEq] at h
      exact h.symm
    subst hframe
    have h4 : (int_to_bytes4 (pickle_dumps m).length).length = 4 := rfl
    have htake : (int_to_bytes4 (pickle_dumps m).length ++ pickle_dumps m).take 4 =
        int_to_bytes4 (pickle_dumps m).length := List.take_left' h4
    have hdrop : (int_to_bytes4 (pickle_dumps m).length ++ pickle_dumps m).drop 4 =
        pickle_dumps m := List.drop_left' h4
    rw [receive_frame, htake, hdrop, h4, if_neg (by omega),
        int_from_to_bytes4 _ hlen, if_neg (by omega), List.take_length]
    exact pickle_roundtrip m
  · rw [send_frame, if_neg hlen] at h
    exact absurd h (by simp)

/-- C2 witness: a concrete message framed and unframed is recovered
exactly. -/
theorem claim_C2_codec_roundtrip_witness :
    receive_frame ((send_frame ⟨"a", .vint 1, 0⟩).getD []) =
      some ⟨"a", .vint 1, 0⟩ :=
  claim_C2_codec_roundtrip ⟨"a", .vint 1, 0⟩ _ (by rfl)

/-! ## Lock instrumentation

The store lock self.lock enters the picture in three handlers, each
through a with self.lock statement: _process_message (line 137, spanning
the whole handler body including its _broadcast calls at lines 146, 161,
166 and 176), one iteration of _update_loop (lines 188-191, where the
_broadcast of the game_state message sits inside the with block), and
_remove_client (line 240, spanning the player_left _broadcast at line
256).  _broadcast performs one _send_to_client, hence one socket.sendall
(line 217) — network I/O — per recipient.  Each handler invocation is
instrumented here as its sequence of lock and send events, read off the
with spans of the source; the send counts reuse the embedded handlers
above. -/

/-- One observable event of a handler with respect to the store lock: the
lock is acquired, the lock is released, or one sendall to a client socket
is performed. -/
inductive LockEvent where
  | acquire
  | release
  | send

/-- The send events a _broadcast call performs for each recorded emission:
one per recipient, in order. -/
def broadcast_send_events (clients : List Nat) : List Emit → List LockEvent
  | [] => []
  | e :: t =>
      (broadcast_recipients clients e.2).map (fun _ => LockEvent.send) ++
        broadcast_send_events clients t

/-- The lock and send events of one _process_message invocation (network.py
lines 135-179): the with statement at line 137 acquires the lock, the
handler body runs — performing every broadcast it emits inside the block —
and the lock is released when the block exits, also when it exits through
an exception. -/
def lock_trace_process_message (player_id now : Nat) (message : NetworkMessage)
    (s : ServerState) : List LockEvent :=
  match process_message player_id now message s.game_state with
  | .ok (_, emits) =>
      .acquire :: (broadcast_send_events s.clients emits ++ [.release])
  | .error _ => [.acquire, .release]

/-- The lock and send events of one _update_loop iteration (network.py
lines 188-191): the with statement wraps both the construction of the
game_state message and the _broadcast that sends it to every client. -/
def lock_trace_update_loop (s : ServerState) : List LockEvent :=
  .acquire ::
    ((broadcast_recipients s.clients none).map (fun _ => LockEvent.send) ++ [.release])

/-- The lock and send events of one _remove_client invocation (network.py
lines 238-258): the with statement at line 240 wraps the whole body, so
when the id is registered the player_left broadcast to the remaining
clients happens inside the block. -/
def lock_trace_remove_client (player_id : Nat) (s : ServerState) : List LockEvent :=
  if player_id ∈ s.clients then
    .acquire ::
      ((broadcast_recipients (s.clients.erase player_id) none).map
        (fun _ => LockEvent.send) ++ [.release])
  else [.acquire, .release]

/-- The number of send events performed while the lock is held, scanning a
trace at a given starting lock depth. -/
def sends_under_lock (depth : Nat) : List LockEvent → Nat
  | [] => 0
  | .acquire :: t => sends_under_lock (depth + 1) t
  | .release :: t => sends_under_lock (depth - 1) t
  | .send :: t => (if 0 < depth then 1 else 0) + sends_under_lock depth t

/-- C8: the code holds the store lock while performing network I/O,
violating the never-across-I/O promise — with one registered client, an
update-loop tick sends the game_state broadcast at positive lock depth; an
attack message handled by the router sends its player_attack rebroadcast
at positive lock depth; and removing player 0 while players 0 and 1 are
registered sends the player_left broadcast at positive lock depth. -/
theorem claim_C8_lock_held_during_send :
    sends_under_lock 0
        (lock_trace_update_loop ⟨[0], [(0, "a")], 1, initial_game_state⟩) = 1 ∧
    sends_under_lock 0
        (lock_trace_process_message 0 5 ⟨"attack", .vnone, 3⟩
          ⟨[0], [(0, "a")], 1, initial_game_state⟩) = 1 ∧
    sends_under_lock 0
        (lock_trace_remove_client 0
          ⟨[0, 1], [(0, "a"), (1, "b")], 2, initial_game_state⟩) = 1 :=
  ⟨rfl, rfl, rfl⟩

end FlyKnight
